import Mathlib

/-!
Verification of the activity dependency and resource coordination core of
OpenCLSim (`src/openclsim/model/base_activities.py`), via a shallow embedding.

Python values are embedded as follows: simpy events, process handles,
container concepts and resources are identified by `Nat`; Python dicts used
as condition expressions become the `Expr` inductive whose `dict` constructor
records which of the recognised keys are present; compiled simpy conditions
(the return values of `parse_expression`) become the `Ev` inductive, with a
satisfaction semantics `evalEv` relative to a valuation of the primitive
events (this mirrors simpy's documented condition semantics: `all_of` fires
once every child has fired, `any_of` once some child has fired); Python
exceptions become `Except` errors.
-/

namespace OpenCLSim

/-- The value space of a start-event / condition expression as accepted by
`GenericActivity.parse_expression` (lines 180-225): a bare `simpy.Event`, a
Python list, a dict (whose recognised keys "and", "or", "type", "state",
"name", "ID", "id_", "concept" are recorded as optional fields), or a value
of any other Python type (recorded with its type name, for the final
`ValueError` branch). -/
inductive Expr where
  | ev (e : Nat)
  | lst (es : List Expr)
  | dict (fAnd fOr : Option (List Expr)) (fType fState fName fID fIdu : Option String)
      (fConcept : Option Nat)
  | other (tyName : String)
deriving Repr

/-- A compiled condition, as returned by `parse_expression`: either a bare
primitive event, an `env.all_of` / `env.any_of` composite, a container
full/empty event obtained from `obj.container.get_full_event` /
`get_empty_event`, or a process handle (returned by `get_done_event` for a
registered, non-postponed activity). -/
inductive Ev where
  | prim (e : Nat)
  | allOf (es : List Ev)
  | anyOf (es : List Ev)
  | fullEvent (concept : Nat) (idu : String)
  | emptyEvent (concept : Nat) (idu : String)
  | procEv (p : Nat)
deriving Repr

/-- The Python exceptions raised by `parse_expression` and subprocess
composition: the bare `ValueError` of line 221 (unrecognised dict shape), the
typed `ValueError` of line 223 (invalid input type), the bare `ValueError` of
line 201 (container state neither "full" nor "empty"), the `ValueError` of
line 205 (activity state other than "done"), the `Exception` of line 214 (no
activity found for the key), `KeyError` for a mandatory dict key access, and
the `ValueError` of `start_sequential_subprocesses` line 55. -/
inductive PErr where
  | invalidDictShape
  | invalidInputType (tyName : String)
  | invalidContainerState
  | unknownActivityState (s : Option String)
  | noActivityFound (key : Option String)
  | keyError (k : String)
  | invalidStartEventType (tyName : String)
deriving Repr, DecidableEq

/-- The fields of a `GenericActivity` relevant to this core (`__init__`,
lines 133-150): identity, the `postpone_start` flag, the declared start
condition (`None` or an expression value), the done event created by
`self.env.event()` (identified by a `Nat`), and the `main_process` attribute,
absent (`none`) until `register_process` sets it. -/
structure Activity where
  name : String
  id : String
  postpone_start : Bool
  start_event : Option Expr
  done_event : Nat
  main_process : Option Nat
deriving Repr

/-- The shared registry (directory): the `"id"` and `"name"` sub-dicts, each
mapping a key to the list of activities registered under it, embedded as
association lists in insertion order. -/
structure Registry where
  idIdx : List (String × List Activity)
  nameIdx : List (String × List Activity)
deriving Repr

/-- `GenericActivity.get_done_event` (lines 227-230): for a postponed
activity, the manually managed done event; otherwise
`getattr(self, "main_process", self.done_event)` — the scheduled process
handle when the attribute exists, else the done event. -/
def get_done_event (a : Activity) : Ev :=
  if a.postpone_start then Ev.prim a.done_event
  else
    match a.main_process with
    | some p => Ev.procEv p
    | none => Ev.prim a.done_event

/-- The registry lookup of `parse_expression` lines 209-211:
`registry.get("id", {}).get(key, registry.get("name", {}).get(key))` — the id
index first, falling back to the name index; a `None` key misses both. -/
def registryLookup (reg : Registry) : Option String → Option (List Activity)
  | none => none
  | some k =>
    match reg.idIdx.lookup k with
    | some l => some l
    | none => reg.nameIdx.lookup k

mutual

/-- `GenericActivity.parse_expression` (lines 180-225), compiling a condition
expression to a composite condition or raising. The dict branches are tried
in source order: "and" (line 186), "or" (line 190), type "container"
(line 194), type "activity" (line 203), then the bare `ValueError` of
line 221; a non-event, non-list, non-dict value raises the `ValueError` of
line 223. -/
def parse_expression (reg : Registry) : Expr → Except PErr Ev
  | .ev e => .ok (.prim e)
  | .lst es => do
    return .allOf (← parseExprList reg es)
  | .dict fAnd fOr fType fState fName fID fIdu fConcept =>
    match fAnd with
    | some children => do
      return .allOf (← parseExprList reg children)
    | none =>
      match fOr with
      | some children => do
        return .anyOf (← parseExprList reg children)
      | none =>
        if fType = some "container" then
          let idu := fIdu.getD "default"
          match fConcept with
          | none => .error (.keyError "concept")
          | some c =>
            match fState with
            | none => .error (.keyError "state")
            | some s =>
              if s = "full" then .ok (.fullEvent c idu)
              else if s = "empty" then .ok (.emptyEvent c idu)
              else .error .invalidContainerState
        else if fType = some "activity" then
          if fState ≠ some "done" then .error (.unknownActivityState fState)
          else
            let key := match fID with
              | some k => some k
              | none => fName
            match registryLookup reg key with
            | none => .error (.noActivityFound key)
            | some acts => .ok (.allOf (acts.map get_done_event))
        else .error .invalidDictShape
  | .other tyName => .error (.invalidInputType tyName)

/-- The element-wise compilation of the list comprehensions in
`parse_expression` (lines 184, 188, 192): the first failing element's
exception propagates. -/
def parseExprList (reg : Registry) : List Expr → Except PErr (List Ev)
  | [] => .ok []
  | e :: es => do
    return (← parse_expression reg e) :: (← parseExprList reg es)

end

/-- A valuation of the simulation state at some instant: which primitive
events have fired, which process handles have terminated, and which
container full/empty threshold events have fired. -/
structure Valuation where
  prim : Nat → Bool
  procDone : Nat → Bool
  contFull : Nat → String → Bool
  contEmpty : Nat → String → Bool

mutual

/-- Satisfaction of a compiled condition under a valuation, mirroring
simpy's documented condition semantics: `all_of` is satisfied once every
child is (vacuously for no children), `any_of` once some child is. -/
def evalEv (v : Valuation) : Ev → Bool
  | .prim e => v.prim e
  | .allOf es => (evalEvList v es).all (fun b => b)
  | .anyOf es => (evalEvList v es).any (fun b => b)
  | .fullEvent c idu => v.contFull c idu
  | .emptyEvent c idu => v.contEmpty c idu
  | .procEv p => v.procDone p

/-- Child-wise satisfaction values of a list of compiled conditions. -/
def evalEvList (v : Valuation) : List Ev → List Bool
  | [] => []
  | e :: es => evalEv v e :: evalEvList v es

end

/-- The `{"and": children}` dict built by the subprocess composer
(lines 59, 68, 85). -/
def mkAndDict (children : List Expr) : Expr :=
  .dict (some children) none none none none none none none

/-- The `{"type": "activity", "state": "done", "name": n}` dict appended by
`start_sequential_subprocesses` for a non-first child (lines 61-67). -/
def activityDoneExpr (n : String) : Expr :=
  .dict none none (some "activity") (some "done") (some n) none none none

/-- The start-event normalisation of `start_sequential_subprocesses` and
`start_parallel_subprocesses` (lines 47-55 and 74-82): a dict or
`simpy.Event` is wrapped in a singleton list, `None` becomes the empty list,
a list is kept as is, and any other type raises `ValueError` (line 55). -/
def normalizeStartEvent : Option Expr → Except PErr (List Expr)
  | some (.ev e) => .ok [.ev e]
  | some (.dict fAnd fOr fType fState fName fID fIdu fConcept) =>
    .ok [.dict fAnd fOr fType fState fName fID fIdu fConcept]
  | none => .ok []
  | some (.lst es) => .ok es
  | some (.other ty) => .error (.invalidStartEventType ty)

/-- The loop body of `start_sequential_subprocesses` (lines 46-68), carrying
the name of the previous child (`none` for the first child, which gets the
shared `start_sequence` event appended instead). -/
def seqRewriteFrom (startSeq : Nat) : Option String → List Activity → Except PErr (List Activity)
  | _, [] => .ok []
  | none, sub :: rest => do
    let children ← normalizeStartEvent sub.start_event
    let rest' ← seqRewriteFrom startSeq (some sub.name) rest
    return { sub with start_event := some (.lst [mkAndDict (children ++ [.ev startSeq])]) }
      :: rest'
  | some prev, sub :: rest => do
    let children ← normalizeStartEvent sub.start_event
    let rest' ← seqRewriteFrom startSeq (some sub.name) rest
    return { sub with start_event := some (.lst [mkAndDict (children ++ [activityDoneExpr prev])]) }
      :: rest'

/-- `StartSubProcesses.start_sequential_subprocesses` (lines 43-68):
`startSeq` is the fresh `self.start_sequence = self.env.event()` of line 44;
each child's start condition is rewritten to `[{"and": children}]`. -/
def start_sequential_subprocesses (startSeq : Nat) (subs : List Activity) :
    Except PErr (List Activity) :=
  seqRewriteFrom startSeq none subs

/-- A registered plugin entry (`{"priority": priority, "plugin": plugin}`,
line 101), with a ghost field `seq` recording the registration order so that
stability of the sort can be stated. -/
structure PluginEntry where
  priority : Int
  plugin : Nat
  seq : Nat
deriving Repr, DecidableEq

/-- `PluginActivity.register_plugin` (lines 100-102): append, then re-sort by
priority with Python's `sorted`, which is specified to be a stable sort;
`List.insertionSort` with the non-strict comparator is a stable sort. -/
def register_plugin (plugins : List PluginEntry) (e : PluginEntry) : List PluginEntry :=
  List.insertionSort (fun a b => a.priority ≤ b.priority) (plugins ++ [e])

/-- The order in which `PluginActivity.pre_process` (lines 104-107) invokes
the registered plugins' hooks: the pipeline list order. -/
def pre_process_order (ps : List PluginEntry) : List Nat :=
  ps.map (fun e => e.plugin)

/-- The order in which `PluginActivity.post_process` (lines 109-112) invokes
the registered plugins' hooks: likewise the pipeline list order (the same
loop over `self.plugins`). -/
def post_process_order (ps : List PluginEntry) : List Nat :=
  ps.map (fun e => e.plugin)

/-- Tag a list of registration calls `(priority, plugin)` with consecutive
registration sequence numbers starting at `n`. -/
def tagFrom : Nat → List (Int × Nat) → List PluginEntry
  | _, [] => []
  | n, (p, g) :: rest => ⟨p, g, n⟩ :: tagFrom (n + 1) rest

/-- Fold `register_plugin` over a sequence of registration calls. -/
def buildPipeline : List PluginEntry → List PluginEntry → List PluginEntry
  | acc, [] => acc
  | acc, e :: es => buildPipeline (register_plugin acc e) es

/-- The pipeline resulting from a sequence of `register_plugin` calls on a
freshly constructed `PluginActivity` (`self.plugins = list()`, line 98). -/
def registerAll (regs : List (Int × Nat)) : List PluginEntry :=
  buildPipeline [] (tagFrom 0 regs)

/-- The strong ordering the pipeline invariant asserts: ascending priority,
with ties ordered by registration sequence (stability). -/
def stablyOrdered (a b : PluginEntry) : Prop :=
  a.priority < b.priority ∨ (a.priority = b.priority ∧ a.seq < b.seq)

/-- Reference insertion of a new entry into an already sorted pipeline: after
every entry of no greater priority, before the first entry of strictly
greater priority. Used to characterise `register_plugin` on sorted input. -/
def insLast (x : PluginEntry) : List PluginEntry → List PluginEntry
  | [] => [x]
  | b :: t => if b.priority ≤ x.priority then b :: insLast x t else x :: b :: t

/-- Python `AttributeError`, raised by `item.resource` when `item` is an
object without a `resource` attribute, and simpy's `RuntimeError`, raised by
`Event.succeed` on an already triggered event. -/
inductive RErr where
  | attributeError
  | runtimeError
deriving Repr, DecidableEq

/-- An element of the `kept_resource` parameter of `_release_resource`:
either the raw resource handle itself (a `simpy.Resource`, which has no
`.resource` attribute), or a claim object wrapping the resource (e.g. a
request ticket, whose `.resource` attribute is the resource). -/
inductive KeptItem where
  | raw (r : Nat)
  | wrapped (r : Nat)
deriving Repr, DecidableEq

/-- Python attribute access `item.resource`: defined for a wrapped claim
object, an `AttributeError` for a raw resource handle. -/
def KeptItem.resourceAttr : KeptItem → Except RErr Nat
  | .wrapped r => .ok r
  | .raw _ => .error .attributeError

/-- Python equality `resource == kept_resource` (second disjunct of
line 317): true only when `kept_resource` is the raw resource itself. -/
def KeptItem.selfEq (k : KeptItem) (r : Nat) : Bool :=
  match k with
  | .raw r' => r' == r
  | .wrapped _ => false

/-- The Python value of the `kept_resource` parameter: `None` (the default),
a single object, or a list of them. -/
inductive Kept where
  | nothing
  | single (k : KeptItem)
  | list (ks : List KeptItem)
deriving Repr, DecidableEq

/-- The `requested_resources` dict: resource handle to outstanding claim
ticket, in insertion order (a Python dict has unique keys; uniqueness is an
invariant proved below). -/
abbrev Ledger := List (Nat × Nat)

/-- `GenericActivity._request_resource` (lines 301-305): if the resource has
no entry in `requested_resources`, record `resource.request()` (the fresh
ticket `fresh`) under it; otherwise do nothing. -/
def _request_resource (reqs : Ledger) (r : Nat) (fresh : Nat) : Ledger :=
  if (reqs.lookup r).isSome then reqs else reqs ++ [(r, fresh)]

/-- Lines 320-322 of `_release_resource`: if the resource has an entry,
release the ticket and delete the entry from the dict. -/
def deleteResource (reqs : Ledger) (r : Nat) : Ledger :=
  if (reqs.lookup r).isSome then reqs.filter (fun p => p.1 != r) else reqs

/-- `GenericActivity._release_resource` (lines 307-322): for a list-valued
`kept_resource` the comprehension `[item.resource for item in kept_resource]`
evaluates the `.resource` attribute of every element (line 315); for a single
`kept_resource`, `resource == kept_resource.resource or resource ==
kept_resource` (line 317) evaluates the attribute first. Failing attribute
accesses propagate as `AttributeError`. -/
def _release_resource (reqs : Ledger) (r : Nat) (kept : Kept) : Except RErr Ledger :=
  match kept with
  | .nothing => .ok (deleteResource reqs r)
  | .list ks => do
    let rs ← ks.mapM KeptItem.resourceAttr
    if r ∈ rs then return reqs
    else return deleteResource reqs r
  | .single k => do
    let kr ← k.resourceAttr
    if r == kr then return reqs
    else if k.selfEq r then return reqs
    else return deleteResource reqs r

/-- The state of the environment's one-shot events: which event ids have been
triggered. -/
abbrev EventStore := Nat → Bool

/-- Modelled from the spec and simpy's documented interface (simpy is an
external collaborator, §6): `Event.succeed` triggers a not-yet-triggered
event and raises `RuntimeError` if the event has already been triggered
(a one-shot signal). -/
def eventSucceed (store : EventStore) (e : Nat) : Except RErr EventStore :=
  if store e then .error .runtimeError
  else .ok (fun x => if x == e then true else store x)

/-- `GenericActivity.end` (lines 236-237): `self.done_event.succeed()`.
(`end` is a reserved word in Lean, hence the name.) -/
def endActivity (store : EventStore) (a : Activity) : Except RErr EventStore :=
  eventSucceed store a.done_event

/-- The `GenericActivity` constructor (lines 133-150): records the declared
fields, creates a fresh done event (`self.env.event()`, line 150, identified
by `doneEv`), and leaves the `main_process` attribute unset. -/
def mkActivity (name id : String) (postpone_start : Bool) (start_event : Option Expr)
    (doneEv : Nat) : Activity :=
  { name := name, id := id, postpone_start := postpone_start, start_event := start_event,
    done_event := doneEv, main_process := none }

/-- `registry.setdefault(key, {}).setdefault(k, []).append(self)`
(lines 177-178) on one sub-index: append to the list under `k`, creating the
entry if absent. -/
def idxAppend : List (String × List Activity) → String → Activity → List (String × List Activity)
  | [], k, a => [(k, [a])]
  | (k', l) :: rest, k, a =>
    if k' == k then (k', l ++ [a]) :: rest else (k', l) :: idxAppend rest k a

/-- The registry insertion of `register_process` (lines 177-178): the
activity is appended under its name and its id keys. -/
def registryAdd (reg : Registry) (a : Activity) : Registry :=
  { idIdx := idxAppend reg.idIdx a.id a, nameIdx := idxAppend reg.nameIdx a.name a }

/-- The effect of `GenericActivity.register_process` (lines 152-178) on the
activity's own fields and on the registry: the done event is replaced by a
fresh one (line 154), the scheduled main process handle is set (line 174),
and the activity is inserted into the registry (lines 177-178). Compilation
of the start condition is `parse_expression`, modelled separately. -/
def register_process (a : Activity) (proc freshDone : Nat) (reg : Registry) :
    Activity × Registry :=
  let a' := { a with done_event := freshDone, main_process := some proc }
  (a', registryAdd reg a')

/-- Whether a dict carries at least one of the tags recognised by
`parse_expression`: an "and" key, an "or" key, or a "type" key equal to
"container" or "activity". -/
def recognizedDict : Expr → Bool
  | .dict fAnd fOr fType _ _ _ _ _ =>
    fAnd.isSome || fOr.isSome || fType == some "container" || fType == some "activity"
  | _ => false

/-- The input shapes on which `parse_expression` can possibly succeed: a bare
event, a list, or a dict carrying at least one recognised tag. -/
def legalShape : Expr → Bool
  | .ev _ => true
  | .lst _ => true
  | .dict fAnd fOr fType fState fName fID fIdu fConcept =>
    recognizedDict (.dict fAnd fOr fType fState fName fID fIdu fConcept)
  | .other _ => false

/-- Whether an expression is the bare primitive event `n` (used to ask
whether a conjunct list mentions the shared start signal). -/
def isStartEv (n : Nat) : Expr → Bool
  | .ev m => m == n
  | _ => false

/-- The conjunct list of a rewritten start condition of the shape
`[{"and": children}]` produced by the subprocess composer. -/
def andChildren : Option Expr → Option (List Expr)
  | some (.lst [.dict (some children) none none none none none none none]) => some children
  | _ => none

/-- The keys (resources) holding an outstanding ticket in a ledger. -/
def ledgerKeys (reqs : Ledger) : List Nat :=
  reqs.map (fun p => p.1)

theorem evalEvList_eq_map (v : Valuation) : ∀ es : List Ev, evalEvList v es = es.map (evalEv v)
  | [] => rfl
  | e :: es => by simp only [evalEvList, List.map, evalEvList_eq_map v es]

theorem evalEv_allOf (v : Valuation) (es : List Ev) :
    evalEv v (.allOf es) = es.all (evalEv v) := by
  show (evalEvList v es).all (fun b => b) = es.all (evalEv v)
  rw [evalEvList_eq_map]
  induction es with
  | nil => rfl
  | cons e es ih => simp [List.all_cons, ih]

/-- C8: compiling `{"and": []}` (an and-tagged mapping with an empty child
list), or the bare empty sequence, succeeds and yields `env.all_of([])`,
which is satisfied under every valuation — an immediately satisfied
condition, the "all of zero" semantics. -/
theorem c8_and_empty_already_satisfied :
    ∀ reg : Registry,
      parse_expression reg (mkAndDict []) = .ok (.allOf [])
      ∧ parse_expression reg (.lst []) = .ok (.allOf [])
      ∧ ∀ v : Valuation, evalEv v (.allOf []) = true :=
  fun _ => ⟨rfl, rfl, fun _ => rfl⟩

/-- C10: for a non-postponed activity on which `register_process` has never
run (so the `main_process` attribute is absent), `get_done_event` does not
fail: it returns the done event created at construction; once
`register_process` has run, it returns the scheduled main process handle. -/
theorem c10_get_done_event_total :
    ∀ (n i : String) (se : Option Expr) (d : Nat),
      get_done_event (mkActivity n i false se d) = Ev.prim d
      ∧ ∀ (proc fresh : Nat) (reg : Registry),
          get_done_event (register_process (mkActivity n i false se d) proc fresh reg).1
            = Ev.procEv proc :=
  fun _ _ _ _ => ⟨rfl, fun _ _ _ => rfl⟩

/-- The updated event store after a successful `Event.succeed`. -/
def fireEvent (store : EventStore) (e : Nat) : EventStore :=
  fun x => if x == e then true else store x

/-- C9: for an activity whose done event has not yet fired, the first call to
`end()` succeeds and fires the done event, and a second call to `end()` on
the resulting state fails with a hard `RuntimeError` (simpy's
`DuplicateSignalFired` analogue) rather than succeeding or being ignored. -/
theorem c9_end_twice_fails :
    ∀ (store : EventStore) (a : Activity),
      store a.done_event = false →
      endActivity store a = .ok (fireEvent store a.done_event)
      ∧ fireEvent store a.done_event a.done_event = true
      ∧ endActivity (fireEvent store a.done_event) a = .error .runtimeError := by
  intro store a h
  refine ⟨?_, ?_, ?_⟩
  · unfold endActivity eventSucceed fireEvent
    rw [h]
    rfl
  · simp [fireEvent]
  · simp [endActivity, eventSucceed, fireEvent]

theorem c9_end_twice_fails_witness :
    endActivity (fun _ => false) (mkActivity "A" "a" true none 0)
        = .ok (fireEvent (fun _ => false) 0)
      ∧ fireEvent (fun _ => false) 0 0 = true
      ∧ endActivity (fireEvent (fun _ => false) 0) (mkActivity "A" "a" true none 0)
        = .error .runtimeError :=
  c9_end_twice_fails (fun _ => false) (mkActivity "A" "a" true none 0) rfl

/-- C4 counterexample: with resource `5` holding outstanding ticket `100`,
releasing with `kept = [5]` — the list containing the raw resource itself —
does not match-and-skip: the comprehension `[item.resource for item in
kept_resource]` evaluates `.resource` on the raw handle and raises
`AttributeError`, so the call is not a no-op that leaves the ticket present
as the claim states. -/
theorem c4_counterexample :
    _release_resource [(5, 100)] 5 (.list [.raw 5]) = .error .attributeError := rfl

/-- C1 counterexample: sequentially composing three children X, Y, Z with no
pre-existing start conditions rewrites Y's and Z's start conditions to
`[{"and": [ACTIVITY_DONE(prev)]}]` — the conjunct lists of the children at
positions 1 and 2 are exactly `[ACTIVITY_DONE(X)]` and `[ACTIVITY_DONE(Y)]`
and contain no occurrence of the shared start signal (event 0), contrary to
the claim that every child at position i > 0 is gated by the shared start
signal as a conjunct. -/
theorem c1_counterexample :
    (start_sequential_subprocesses 0
        [mkActivity "X" "x" false none 10, mkActivity "Y" "y" false none 11,
          mkActivity "Z" "z" false none 12]).map
        (fun subs => subs.map (fun a => andChildren a.start_event))
      = .ok [some [Expr.ev 0], some [activityDoneExpr "X"], some [activityDoneExpr "Y"]]
    ∧ ([activityDoneExpr "X"].any (isStartEv 0) || [activityDoneExpr "Y"].any (isStartEv 0))
      = false :=
  ⟨rfl, rfl⟩

/-- C1 amended: with no pre-existing start conditions, the first child is
gated by `AND(start_signal)` alone, and every later child is gated by
`AND(ACTIVITY_DONE(previous child's name))` alone — the shared start signal
is appended only to the first child's condition (later children wait for it
only transitively, through the previous child's completion). -/
theorem c1_sequential_rewrite_amended :
    ∀ (s : Nat) (x y z : Activity),
      x.start_event = none → y.start_event = none → z.start_event = none →
      start_sequential_subprocesses s [x, y, z]
        = .ok [{ x with start_event := some (.lst [mkAndDict [.ev s]]) },
            { y with start_event := some (.lst [mkAndDict [activityDoneExpr x.name]]) },
            { z with start_event := some (.lst [mkAndDict [activityDoneExpr y.name]]) }] := by
  intro s x y z hx hy hz
  obtain ⟨xn, xi, xp, xs, xd, xm⟩ := x
  obtain ⟨yn, yi, yp, ys, yd, ym⟩ := y
  obtain ⟨zn, zi, zp, zs, zd, zm⟩ := z
  subst hx hy hz
  rfl

theorem c1_sequential_rewrite_amended_witness :
    start_sequential_subprocesses 7
        [mkActivity "X" "x" false none 10, mkActivity "Y" "y" false none 11,
          mkActivity "Z" "z" false none 12]
      = .ok [{ mkActivity "X" "x" false none 10 with
                start_event := some (.lst [mkAndDict [.ev 7]]) },
          { mkActivity "Y" "y" false none 11 with
            start_event := some (.lst [mkAndDict [activityDoneExpr "X"]]) },
          { mkActivity "Z" "z" false none 12 with
            start_event := some (.lst [mkAndDict [activityDoneExpr "Y"]]) }] :=
  c1_sequential_rewrite_amended 7 (mkActivity "X" "x" false none 10)
    (mkActivity "Y" "y" false none 11) (mkActivity "Z" "z" false none 12) rfl rfl rfl

theorem parse_activityDone_eq (reg : Registry) (k : String) :
    parse_expression reg (activityDoneExpr k)
      = (match registryLookup reg (some k) with
        | none => Except.error (.noActivityFound (some k))
        | some acts => Except.ok (.allOf (acts.map get_done_event))) := rfl

/-- C2: when a key is registered with two or more activities, compiling
`ACTIVITY_DONE(key)` yields the AND-combination of the done events of all of
them: the condition is satisfied exactly when every one of those done events
has fired, never after only a proper subset; and the lookup tries the id
index first, falling back to the name index. -/
theorem c2_activity_done_fanin_and :
    ∀ (reg : Registry) (k : String) (acts : List Activity),
      registryLookup reg (some k) = some acts →
      2 ≤ acts.length →
      parse_expression reg (activityDoneExpr k) = .ok (.allOf (acts.map get_done_event))
      ∧ (∀ v : Valuation,
          evalEv v (.allOf (acts.map get_done_event)) = true
            ↔ ∀ a ∈ acts, evalEv v (get_done_event a) = true)
      ∧ (∀ (v : Valuation) (a : Activity), a ∈ acts → evalEv v (get_done_event a) = false →
          evalEv v (.allOf (acts.map get_done_event)) = false)
      ∧ (∀ l, reg.idIdx.lookup k = some l → registryLookup reg (some k) = some l)
      ∧ (reg.idIdx.lookup k = none → registryLookup reg (some k) = reg.nameIdx.lookup k) := by
  intro reg k acts h _hlen
  have hiff : ∀ v : Valuation,
      evalEv v (.allOf (acts.map get_done_event)) = true
        ↔ ∀ a ∈ acts, evalEv v (get_done_event a) = true := by
    intro v
    rw [evalEv_allOf]
    simp [List.all_eq_true]
  refine ⟨?_, hiff, ?_, ?_, ?_⟩
  · rw [parse_activityDone_eq, h]
  · intro v a ha hfa
    cases hall : evalEv v (.allOf (acts.map get_done_event)) with
    | false => rfl
    | true =>
      have := ((hiff v).1 hall) a ha
      rw [this] at hfa
      exact absurd hfa (by simp)
  · intro l hl
    simp [registryLookup, hl]
  · intro hl
    simp [registryLookup, hl]

theorem c2_activity_done_fanin_and_witness :
    parse_expression ⟨[], [("dig", [mkActivity "A" "a1" true none 1,
        mkActivity "B" "a2" true none 2])]⟩ (activityDoneExpr "dig")
      = .ok (.allOf ([mkActivity "A" "a1" true none 1,
          mkActivity "B" "a2" true none 2].map get_done_event)) :=
  (c2_activity_done_fanin_and
    ⟨[], [("dig", [mkActivity "A" "a1" true none 1, mkActivity "B" "a2" true none 2])]⟩
    "dig" [mkActivity "A" "a1" true none 1, mkActivity "B" "a2" true none 2]
    rfl (by decide)).1

/-- C6: compiling `ACTIVITY_DONE(key)` for a key registered in neither the id
index nor the name index fails with the line-214 exception (the spec's
`UnknownActivityReference`) — it never compiles to any condition at all, in
particular not to an already-satisfied one. -/
theorem c6_unknown_activity_reference :
    ∀ (reg : Registry) (k : String),
      registryLookup reg (some k) = none →
      parse_expression reg (activityDoneExpr k) = .error (.noActivityFound (some k))
      ∧ ∀ ev : Ev, parse_expression reg (activityDoneExpr k) ≠ .ok ev := by
  intro reg k h
  have h1 : parse_expression reg (activityDoneExpr k) = .error (.noActivityFound (some k)) := by
    rw [parse_activityDone_eq, h]
  exact ⟨h1, fun ev hev => by rw [h1] at hev; exact Except.noConfusion hev⟩

theorem c6_unknown_activity_reference_witness :
    parse_expression ⟨[("a1", [mkActivity "A" "a1" true none 1])],
        [("A", [mkActivity "A" "a1" true none 1])]⟩ (activityDoneExpr "ghost")
      = .error (.noActivityFound (some "ghost"))
    ∧ parse_expression ⟨[("a1", [mkActivity "A" "a1" true none 1])],
        [("A", [mkActivity "A" "a1" true none 1])]⟩ (activityDoneExpr "ghost")
      ≠ .ok (.allOf []) :=
  ⟨(c6_unknown_activity_reference ⟨[("a1", [mkActivity "A" "a1" true none 1])],
      [("A", [mkActivity "A" "a1" true none 1])]⟩ "ghost" rfl).1,
    (c6_unknown_activity_reference ⟨[("a1", [mkActivity "A" "a1" true none 1])],
      [("A", [mkActivity "A" "a1" true none 1])]⟩ "ghost" rfl).2 (.allOf [])⟩

/-- C3 counterexample: a mapping carrying more than one of the recognised
tags — here both an "and" and an "or" key — does not fail: the "and" branch
is tried first (line 186) and the expression compiles to `all_of([])`. -/
theorem c3_counterexample :
    parse_expression ⟨[], []⟩ (.dict (some []) (some []) none none none none none none)
      = .ok (.allOf []) := rfl

theorem parse_dict_unrecognized (reg : Registry) (fAnd fOr : Option (List Expr))
    (fType fState fName fID fIdu : Option String) (fConcept : Option Nat)
    (h : recognizedDict (.dict fAnd fOr fType fState fName fID fIdu fConcept) = false) :
    parse_expression reg (.dict fAnd fOr fType fState fName fID fIdu fConcept)
      = .error .invalidDictShape := by
  cases fAnd with
  | some l => simp [recognizedDict] at h
  | none =>
    cases fOr with
    | some l => simp [recognizedDict] at h
    | none =>
      simp only [recognizedDict, Option.isSome_none, Bool.false_or, Bool.or_eq_false_iff,
        beq_eq_false_iff_ne, ne_eq] at h
      obtain ⟨h3, h4⟩ := h
      show (if fType = some "container" then _ else if fType = some "activity" then _
        else Except.error PErr.invalidDictShape) = Except.error PErr.invalidDictShape
      rw [if_neg h3, if_neg h4]

/-- C3 amended: `parse_expression` succeeds only on a bare primitive event, a
sequence, or a mapping carrying at least one of the and/or/container/activity
tags — the tags being tried in that fixed order, so a mapping carrying more
than one of them is compiled according to the first matching tag rather than
rejected; a mapping carrying none of them, or a value of any other type,
fails with the `ValueError` the spec calls `InvalidExpressionKind`. -/
theorem c3_legal_shapes_amended :
    (∀ (reg : Registry) (e : Expr) (v : Ev),
        parse_expression reg e = .ok v → legalShape e = true)
    ∧ (∀ (reg : Registry) (e : Expr), legalShape e = false →
        parse_expression reg e = .error .invalidDictShape
        ∨ ∃ ty, parse_expression reg e = .error (.invalidInputType ty)) := by
  constructor
  · intro reg e v hok
    match e with
    | .ev _ => rfl
    | .lst _ => rfl
    | .other ty => exact Except.noConfusion hok
    | .dict fAnd fOr fType fState fName fID fIdu fConcept =>
      cases hrec : recognizedDict (.dict fAnd fOr fType fState fName fID fIdu fConcept) with
      | true => simpa [legalShape] using hrec
      | false =>
        rw [parse_dict_unrecognized reg fAnd fOr fType fState fName fID fIdu fConcept hrec]
          at hok
        exact Except.noConfusion hok
  · intro reg e hbad
    match e with
    | .ev _ => exact Bool.noConfusion hbad
    | .lst _ => exact Bool.noConfusion hbad
    | .other ty => exact Or.inr ⟨ty, rfl⟩
    | .dict fAnd fOr fType fState fName fID fIdu fConcept =>
      exact Or.inl (parse_dict_unrecognized reg fAnd fOr fType fState fName fID fIdu fConcept
        (by simpa [legalShape] using hbad))

theorem c3_legal_shapes_amended_witness :
    legalShape (Expr.ev 3) = true
    ∧ (parse_expression ⟨[], []⟩ (.dict none none none none none none none none)
        = .error .invalidDictShape
      ∨ ∃ ty, parse_expression ⟨[], []⟩ (.dict none none none none none none none none)
        = .error (.invalidInputType ty)) :=
  ⟨c3_legal_shapes_amended.1 ⟨[], []⟩ (Expr.ev 3) (.prim 3) rfl,
    c3_legal_shapes_amended.2 ⟨[], []⟩ (.dict none none none none none none none none) rfl⟩

theorem lookup_filter_self (r : Nat) :
    ∀ reqs : Ledger, (reqs.filter (fun p => p.1 != r)).lookup r = none := by
  intro reqs
  induction reqs with
  | nil => rfl
  | cons p rest ih =>
    obtain ⟨a, b⟩ := p
    by_cases h : a = r
    · subst h
      simpa [List.filter_cons] using ih
    · have hbne : (a != r) = true := bne_iff_ne.mpr h
      have hbeq : (r == a) = false := beq_eq_false_iff_ne.mpr (Ne.symm h)
      simp [List.filter_cons, hbne, List.lookup, hbeq, ih]

theorem deleteResource_lookup_none (reqs : Ledger) (r : Nat) :
    (deleteResource reqs r).lookup r = none := by
  unfold deleteResource
  by_cases h : (reqs.lookup r).isSome
  · rw [if_pos h]
    exact lookup_filter_self r reqs
  · rw [if_neg h]
    exact Option.not_isSome_iff_eq_none.1 h

/-- C4 amended: with an outstanding ticket for `r`, releasing with
`kept = [wrapped(r)]` (the resource wrapped in a claim object) is a no-op
that leaves the ticket in the ledger, while releasing with `kept = []`
removes it; in the list form only the wrapped shape is matched — a raw
resource in the list raises `AttributeError` (see the counterexample) — the
raw-or-wrapped double check applying only to a single, non-list kept
value. -/
theorem c4_release_kept_amended :
    ∀ (reqs : Ledger) (r t : Nat),
      reqs.lookup r = some t →
      _release_resource reqs r (.list [.wrapped r]) = .ok reqs
      ∧ reqs.lookup r = some t
      ∧ _release_resource reqs r (.list []) = .ok (deleteResource reqs r)
      ∧ (deleteResource reqs r).lookup r = none := by
  intro reqs r t h
  refine ⟨?_, h, ?_, deleteResource_lookup_none reqs r⟩
  · show (if r ∈ [r] then (pure reqs : Except RErr Ledger) else pure (deleteResource reqs r))
      = Except.ok reqs
    rw [if_pos (List.mem_singleton_self r)]
    rfl
  · show (if r ∈ ([] : List Nat) then (pure reqs : Except RErr Ledger)
        else pure (deleteResource reqs r))
      = Except.ok (deleteResource reqs r)
    rw [if_neg (List.not_mem_nil r)]
    rfl

theorem c4_release_kept_amended_witness :
    _release_resource [(5, 100)] 5 (.list [.wrapped 5]) = .ok [(5, 100)]
    ∧ (List.lookup 5 [(5, 100)] : Option Nat) = some 100
    ∧ _release_resource [(5, 100)] 5 (.list []) = .ok (deleteResource [(5, 100)] 5)
    ∧ (deleteResource [(5, 100)] 5).lookup 5 = none :=
  c4_release_kept_amended [(5, 100)] 5 100 rfl

theorem lookup_none_not_mem_keys {r : Nat} :
    ∀ {reqs : Ledger}, reqs.lookup r = none → r ∉ ledgerKeys reqs := by
  intro reqs
  induction reqs with
  | nil =>
    intro _ hc
    simp [ledgerKeys] at hc
  | cons p rest ih =>
    obtain ⟨a, b⟩ := p
    intro h
    by_cases hra : r = a
    · subst hra
      simp [List.lookup] at h
    · have hbeq : (r == a) = false := beq_eq_false_iff_ne.mpr hra
      simp only [List.lookup, hbeq] at h
      simp only [ledgerKeys, List.map_cons, List.mem_cons]
      rintro (hc | hc)
      · exact hra hc
      · exact (ih h) hc

theorem mem_keys_of_lookup_some {r t : Nat} :
    ∀ {reqs : Ledger}, reqs.lookup r = some t → r ∈ ledgerKeys reqs := by
  intro reqs
  induction reqs with
  | nil =>
    intro h
    exact Option.noConfusion h
  | cons p rest ih =>
    obtain ⟨a, b⟩ := p
    intro h
    by_cases hra : r = a
    · simp [ledgerKeys, hra]
    · have hbeq : (r == a) = false := beq_eq_false_iff_ne.mpr hra
      simp only [List.lookup, hbeq] at h
      simp only [ledgerKeys, List.map_cons, List.mem_cons]
      exact Or.inr (ih h)

theorem lookup_append_single {r f : Nat} :
    ∀ {reqs : Ledger}, reqs.lookup r = none → (reqs ++ [(r, f)]).lookup r = some f := by
  intro reqs
  induction reqs with
  | nil =>
    intro _
    simp [List.lookup]
  | cons p rest ih =>
    obtain ⟨a, b⟩ := p
    intro h
    by_cases hra : r = a
    · subst hra
      simp [List.lookup] at h
    · have hbeq : (r == a) = false := beq_eq_false_iff_ne.mpr hra
      simp only [List.cons_append, List.lookup, hbeq] at h ⊢
      exact ih h

theorem deleteResource_keys_nodup {reqs : Ledger} {r : Nat}
    (h : (ledgerKeys reqs).Nodup) : (ledgerKeys (deleteResource reqs r)).Nodup := by
  unfold deleteResource
  by_cases hs : (reqs.lookup r).isSome
  · rw [if_pos hs]
    show ((reqs.filter (fun p => p.1 != r)).map (fun p => p.1)).Nodup
    exact List.Nodup.sublist ((List.filter_sublist reqs).map (fun p => p.1)) h
  · rw [if_neg hs]
    exact h

/-- C5: two `_request_resource` calls in succession for the same resource
before any release record exactly one outstanding ticket; a request for an
already-claimed resource is a no-op issuing no second claim; and the
invariant that the ledger holds at most one outstanding ticket per resource
(its key list has no duplicates) is preserved by every `_request_resource`
call and every successful `_release_resource` call. -/
theorem c5_request_once_invariant :
    (∀ (reqs : Ledger) (r f1 f2 : Nat),
        (ledgerKeys reqs).Nodup →
        _request_resource (_request_resource reqs r f1) r f2 = _request_resource reqs r f1
        ∧ (ledgerKeys (_request_resource reqs r f1)).count r = 1)
    ∧ (∀ (reqs : Ledger) (r f : Nat),
        (reqs.lookup r).isSome → _request_resource reqs r f = reqs)
    ∧ (∀ (reqs : Ledger) (r f : Nat),
        (ledgerKeys reqs).Nodup → (ledgerKeys (_request_resource reqs r f)).Nodup)
    ∧ (∀ (reqs reqs' : Ledger) (r : Nat) (kept : Kept),
        (ledgerKeys reqs).Nodup → _release_resource reqs r kept = .ok reqs' →
        (ledgerKeys reqs').Nodup) := by
  refine ⟨?_, ?_, ?_, ?_⟩
  · intro reqs r f1 f2 hnd
    cases hl : reqs.lookup r with
    | some t =>
      have h1 : _request_resource reqs r f1 = reqs := by
        unfold _request_resource
        rw [hl]
        rfl
      constructor
      · rw [h1]
        unfold _request_resource
        rw [hl]
        rfl
      · rw [h1]
        exact List.count_eq_one_of_mem hnd (mem_keys_of_lookup_some hl)
    | none =>
      have h1 : _request_resource reqs r f1 = reqs ++ [(r, f1)] := by
        unfold _request_resource
        rw [hl]
        rfl
      constructor
      · rw [h1]
        unfold _request_resource
        rw [lookup_append_single hl]
        rfl
      · rw [h1]
        have : ledgerKeys (reqs ++ [(r, f1)]) = ledgerKeys reqs ++ [r] := by
          simp [ledgerKeys]
        rw [this, List.count_append,
          List.count_eq_zero_of_not_mem (lookup_none_not_mem_keys hl)]
        simp
  · intro reqs r f hs
    unfold _request_resource
    rw [if_pos hs]
  · intro reqs r f hnd
    cases hl : reqs.lookup r with
    | some t =>
      unfold _request_resource
      rw [hl]
      exact hnd
    | none =>
      have h1 : _request_resource reqs r f = reqs ++ [(r, f)] := by
        unfold _request_resource
        rw [hl]
        rfl
      rw [h1]
      have hk : ledgerKeys (reqs ++ [(r, f)]) = ledgerKeys reqs ++ [r] := by
        simp [ledgerKeys]
      rw [hk, List.nodup_append]
      refine ⟨hnd, List.nodup_singleton r, ?_⟩
      intro a ha hb
      rw [List.mem_singleton] at hb
      subst hb
      exact lookup_none_not_mem_keys hl ha
  · intro reqs reqs' r kept hnd hok
    cases kept with
    | nothing =>
      have h1 : reqs' = deleteResource reqs r := (Except.ok.inj hok).symm
      rw [h1]
      exact deleteResource_keys_nodup hnd
    | list ks =>
      have hok0 : (do
          let rs ← ks.mapM KeptItem.resourceAttr
          if r ∈ rs then (pure reqs : Except RErr Ledger)
          else pure (deleteResource reqs r)) = Except.ok reqs' := hok
      cases hm : ks.mapM KeptItem.resourceAttr with
      | error e =>
        rw [hm] at hok0
        have hbad : (Except.error e : Except RErr Ledger) = Except.ok reqs' := hok0
        exact Except.noConfusion hbad
      | ok rs =>
        rw [hm] at hok0
        have hok' : (if r ∈ rs then (pure reqs : Except RErr Ledger)
            else pure (deleteResource reqs r)) = Except.ok reqs' := hok0
        by_cases hmem : r ∈ rs
        · rw [if_pos hmem] at hok'
          rw [← Except.ok.inj hok']
          exact hnd
        · rw [if_neg hmem] at hok'
          rw [← Except.ok.inj hok']
          exact deleteResource_keys_nodup hnd
    | single k =>
      have hok0 : (do
          let kr ← k.resourceAttr
          if r == kr then (pure reqs : Except RErr Ledger)
          else if k.selfEq r then pure reqs
          else pure (deleteResource reqs r)) = Except.ok reqs' := hok
      cases hm : k.resourceAttr with
      | error e =>
        rw [hm] at hok0
        have hbad : (Except.error e : Except RErr Ledger) = Except.ok reqs' := hok0
        exact Except.noConfusion hbad
      | ok kr =>
        rw [hm] at hok0
        have hok' : (if r == kr then (pure reqs : Except RErr Ledger)
            else if k.selfEq r then pure reqs
            else pure (deleteResource reqs r)) = Except.ok reqs' := hok0
        by_cases h1 : r == kr
        · rw [if_pos h1] at hok'
          rw [← Except.ok.inj hok']
          exact hnd
        · rw [if_neg h1] at hok'
          by_cases h2 : k.selfEq r
          · rw [if_pos h2] at hok'
            rw [← Except.ok.inj hok']
            exact hnd
          · rw [if_neg h2] at hok'
            rw [← Except.ok.inj hok']
            exact deleteResource_keys_nodup hnd

theorem c5_request_once_invariant_witness :
    (_request_resource (_request_resource [] 7 1) 7 2 = _request_resource [] 7 1
      ∧ (ledgerKeys (_request_resource [] 7 1)).count 7 = 1)
    ∧ _request_resource [(7, 1)] 7 2 = [(7, 1)]
    ∧ (ledgerKeys (_request_resource [] 7 1)).Nodup
    ∧ (ledgerKeys [(7, 1)]).Nodup :=
  ⟨c5_request_once_invariant.1 [] 7 1 2 (by simp [ledgerKeys]),
    c5_request_once_invariant.2.1 [(7, 1)] 7 2 (by simp [List.lookup]),
    c5_request_once_invariant.2.2.1 [] 7 1 (by simp [ledgerKeys]),
    c5_request_once_invariant.2.2.2 [(7, 1)] [(7, 1)] 7 (.list [.wrapped 7])
      (by simp [ledgerKeys]) rfl⟩

theorem stablyOrdered_le {a b : PluginEntry} (h : stablyOrdered a b) :
    a.priority ≤ b.priority := by
  rcases h with h | ⟨h, _⟩
  · exact le_of_lt h
  · exact le_of_eq h

theorem insLast_mem {x e : PluginEntry} :
    ∀ {l : List PluginEntry}, e ∈ insLast x l → e = x ∨ e ∈ l := by
  intro l
  induction l with
  | nil =>
    intro h
    rw [insLast] at h
    exact Or.inl (List.mem_singleton.mp h)
  | cons b t ih =>
    intro h
    rw [insLast] at h
    by_cases hb : b.priority ≤ x.priority
    · rw [if_pos hb] at h
      rcases List.mem_cons.mp h with h | h
      · exact Or.inr (List.mem_cons.mpr (Or.inl h))
      · rcases ih h with h | h
        · exact Or.inl h
        · exact Or.inr (List.mem_cons.mpr (Or.inr h))
    · rw [if_neg hb] at h
      rcases List.mem_cons.mp h with h | h
      · exact Or.inl h
      · exact Or.inr h

theorem register_plugin_sorted_eq :
    ∀ {l : List PluginEntry} (x : PluginEntry),
      l.Pairwise (fun a b => a.priority ≤ b.priority) →
      register_plugin l x = insLast x l := by
  intro l
  induction l with
  | nil =>
    intro x _
    rfl
  | cons a t ih =>
    intro x hp
    have hha := List.pairwise_cons.mp hp
    have hat : ∀ b ∈ t, a.priority ≤ b.priority := hha.1
    show List.orderedInsert _ a (List.insertionSort _ (t ++ [x])) = insLast x (a :: t)
    have hih : List.insertionSort (fun a b : PluginEntry => a.priority ≤ b.priority) (t ++ [x])
        = insLast x t := ih x hha.2
    rw [hih]
    by_cases hax : a.priority ≤ x.priority
    · rw [insLast, if_pos hax]
      cases hm : insLast x t with
      | nil => rw [List.orderedInsert]
      | cons c m =>
        have hc : c = x ∨ c ∈ t := insLast_mem (hm ▸ List.mem_cons_self c m)
        have hac : a.priority ≤ c.priority := by
          rcases hc with h | h
          · rw [h]
            exact hax
          · exact hat c h
        rw [List.orderedInsert, if_pos hac]
    · rw [insLast, if_neg hax]
      have hxt : insLast x t = x :: t := by
        cases t with
        | nil => rfl
        | cons b t' =>
          have hab : a.priority ≤ b.priority := hat b (List.mem_cons_self b t')
          have hbx : ¬b.priority ≤ x.priority := fun hc => hax (le_trans hab hc)
          rw [insLast, if_neg hbx]
      rw [hxt, List.orderedInsert, if_neg hax]
      congr 1
      cases t with
      | nil => rfl
      | cons b t' =>
        rw [List.orderedInsert, if_pos (hat b (List.mem_cons_self b t'))]

theorem insLast_pairwise {x : PluginEntry} :
    ∀ {l : List PluginEntry}, l.Pairwise stablyOrdered →
      (∀ e ∈ l, e.seq < x.seq) → (insLast x l).Pairwise stablyOrdered := by
  intro l
  induction l with
  | nil =>
    intro _ _
    exact List.pairwise_singleton _ _
  | cons b t ih =>
    intro hp hseq
    have hb := List.pairwise_cons.mp hp
    rw [insLast]
    by_cases hbx : b.priority ≤ x.priority
    · rw [if_pos hbx]
      refine List.pairwise_cons.mpr
        ⟨?_, ih hb.2 (fun e he => hseq e (List.mem_cons.mpr (Or.inr he)))⟩
      intro e he
      rcases insLast_mem he with h | h
      · subst h
        rcases lt_or_eq_of_le hbx with h1 | h1
        · exact Or.inl h1
        · exact Or.inr ⟨h1, hseq b (List.mem_cons_self b t)⟩
      · exact hb.1 e h
    · rw [if_neg hbx]
      have hxb : x.priority < b.priority := lt_of_not_le hbx
      refine List.pairwise_cons.mpr ⟨?_, hp⟩
      intro e he
      rcases List.mem_cons.mp he with h | h
      · subst h
        exact Or.inl hxb
      · exact Or.inl (lt_of_lt_of_le hxb (stablyOrdered_le (hb.1 e h)))

theorem tagFrom_seq_ge :
    ∀ (regs : List (Int × Nat)) (n : Nat), ∀ e ∈ tagFrom n regs, n ≤ e.seq := by
  intro regs
  induction regs with
  | nil =>
    intro n e he
    exact absurd he (List.not_mem_nil e)
  | cons p rest ih =>
    obtain ⟨pr, pl⟩ := p
    intro n e he
    rw [tagFrom] at he
    rcases List.mem_cons.mp he with h | h
    · rw [h]
    · exact le_trans (Nat.le_succ n) (ih (n + 1) e h)

theorem tagFrom_seq_pairwise :
    ∀ (regs : List (Int × Nat)) (n : Nat),
      (tagFrom n regs).Pairwise (fun a b => a.seq < b.seq) := by
  intro regs
  induction regs with
  | nil =>
    intro n
    exact List.Pairwise.nil
  | cons p rest ih =>
    obtain ⟨pr, pl⟩ := p
    intro n
    rw [tagFrom]
    refine List.pairwise_cons.mpr ⟨?_, ih (n + 1)⟩
    intro e he
    exact lt_of_lt_of_le (Nat.lt_succ_self n) (tagFrom_seq_ge rest (n + 1) e he)

theorem buildPipeline_pairwise :
    ∀ (es acc : List PluginEntry),
      acc.Pairwise stablyOrdered →
      (∀ a ∈ acc, ∀ e ∈ es, a.seq < e.seq) →
      es.Pairwise (fun a b => a.seq < b.seq) →
      (buildPipeline acc es).Pairwise stablyOrdered := by
  intro es
  induction es with
  | nil =>
    intro acc h _ _
    exact h
  | cons e es' ih =>
    intro acc hacc hcross hes
    rw [buildPipeline]
    have hsorted : acc.Pairwise (fun a b => a.priority ≤ b.priority) :=
      hacc.imp stablyOrdered_le
    rw [register_plugin_sorted_eq e hsorted]
    have hpe : (insLast e acc).Pairwise stablyOrdered :=
      insLast_pairwise hacc (fun a ha => hcross a ha e (List.mem_cons_self e es'))
    have hecross : ∀ a ∈ insLast e acc, ∀ e' ∈ es', a.seq < e'.seq := by
      intro a ha e' he'
      rcases insLast_mem ha with h | h
      · rw [h]
        exact (List.pairwise_cons.mp hes).1 e' he'
      · exact hcross a h e' (List.mem_cons.mpr (Or.inr he'))
    exact ih (insLast e acc) hpe hecross (List.pairwise_cons.mp hes).2

theorem buildPipeline_perm :
    ∀ (es acc : List PluginEntry), (buildPipeline acc es).Perm (acc ++ es) := by
  intro es
  induction es with
  | nil =>
    intro acc
    simp [buildPipeline]
  | cons e es' ih =>
    intro acc
    rw [buildPipeline]
    have h1 := ih (register_plugin acc e)
    have h2 : (register_plugin acc e).Perm (acc ++ [e]) := List.perm_insertionSort _ _
    have h3 := h2.append_right es'
    have h4 : (acc ++ [e]) ++ es' = acc ++ (e :: es') := by simp
    exact h1.trans (h4 ▸ h3)

/-- C7: after every sequence of `register_plugin` calls the pipeline is a
permutation of the registered (priority-tagged) entries that is sorted
ascending by priority with ties in registration order (Python's `sorted` is
stable), and `pre_process` and `post_process` both invoke the plugins' hooks
sequentially in exactly that pipeline order — the same order in both
directions, not stack/reverse order for `post_process`. -/
theorem c7_pipeline_sorted_stable :
    ∀ regs : List (Int × Nat),
      (registerAll regs).Pairwise stablyOrdered
      ∧ (registerAll regs).Perm (tagFrom 0 regs)
      ∧ pre_process_order (registerAll regs) = post_process_order (registerAll regs)
      ∧ pre_process_order (registerAll regs) = (registerAll regs).map (fun e => e.plugin) := by
  intro regs
  refine ⟨?_, ?_, rfl, rfl⟩
  · exact buildPipeline_pairwise (tagFrom 0 regs) [] List.Pairwise.nil
      (fun a ha => absurd ha (List.not_mem_nil a)) (tagFrom_seq_pairwise regs 0)
  · have h := buildPipeline_perm (tagFrom 0 regs) []
    simpa [registerAll] using h

end OpenCLSim
